import Mathlib

/-!
Shallow embedding of the `SessionRedisService` mock store
(`apps/server/src/.../session-redis service` as shipped in the repository's
`VERCEL_FIX_SUMMARY.md` source bundle).

Modelling conventions:
* Timestamps are `Int` milliseconds since the epoch.  The source stores
  `createdAt`/`expiresAt` as ISO-8601 strings and compares them after
  converting back with `new Date(...)`; that round trip preserves the
  millisecond timestamp, so comparing `Int`s is faithful.
* `Date.now()` is passed in explicitly as a `now : Int` argument to every
  operation that reads the clock.
* The module-level JavaScript `Map`s (`mockEntries`, `mockMembers`) are
  association lists in insertion order; `Map.set` updates in place keeping
  the original position, `Map.get` finds the binding, `Map.delete` removes
  it, and iteration follows insertion order, exactly as ECMAScript
  specifies.
* `uuidv4()` is modelled as an injective fresh-identifier supply
  (`genId` applied to a per-module counter).  The only properties of the
  generated ids that the development uses are injectivity, freshness, and
  that a UUID contains no `':'` and is distinct from the sample ids.
* `Array.prototype.sort` with comparator
  `(a, b) => new Date(b.createdAt) - new Date(a.createdAt)` is a stable
  sort by `createdAt` descending (ES2019 requires stability); it is
  modelled by a stable insertion sort `sortDesc`.
-/

/-- Modelled from the spec: `ENTRIES_REFETCH_INTERVAL_MS` lives in
`@/lib/constants`, which is not part of the provided sources.  The spec
describes the presence window as the heartbeat/refetch interval plus a
fixed grace; the web client refetches every 5000 ms, so we fix 5000. -/
def ENTRIES_REFETCH_INTERVAL_MS : Nat := 5000

/-- Modelled from the spec: `MAX_TTL` lives in `@/lib/constants`, which is
not part of the provided sources.  `addEntry` imports it but never consults
it, so its concrete value is irrelevant to every claim; we fix 3600. -/
def MAX_TTL : Int := 3600

/-- The `redisEntrySchema` record.  `imageUrl` is an optional field. -/
structure RedisEntry where
  id : String
  text : String
  createdAt : Int
  expiresAt : Int
  ttl : Int
  imageUrl : Option String
  memberId : String
deriving DecidableEq

/-- A value of the module-level `mockMembers` map. -/
structure MemberInfo where
  sessionId : String
  memberId : String
  lastSeen : Int
deriving DecidableEq

/-- The module-level mutable state: both `Map`s, the uuid supply counter,
and `t0`, the time at which the module was loaded (the `Date.now()` used
when the `sampleEntries` array literal was evaluated). -/
structure St where
  mockEntries : List (String × RedisEntry)
  mockMembers : List (String × MemberInfo)
  uuidCounter : Nat
  t0 : Int
deriving DecidableEq

/-- State at process start: both maps empty. -/
def initSt (t0 : Int) : St :=
  { mockEntries := [], mockMembers := [], uuidCounter := 0, t0 := t0 }

/-- `Map.prototype.get`. -/
def mapGet {α : Type} : List (String × α) → String → Option α
  | [], _ => none
  | (k', v') :: rest, k => if k' = k then some v' else mapGet rest k

/-- `Map.prototype.set`: update in place keeping the original insertion
position, else append. -/
def mapSet {α : Type} : List (String × α) → String → α → List (String × α)
  | [], k, v => [(k, v)]
  | (k', v') :: rest, k, v =>
    if k' = k then (k, v) :: rest else (k', v') :: mapSet rest k v

/-- `Map.prototype.delete` (ignoring the returned boolean). -/
def mapDelete {α : Type} : List (String × α) → String → List (String × α)
  | [], _ => []
  | (k', v') :: rest, k =>
    if k' = k then mapDelete rest k else (k', v') :: mapDelete rest k

/-- `Map.prototype.has`. -/
def mapHas {α : Type} (m : List (String × α)) (k : String) : Bool :=
  (mapGet m k).isSome

/-- Model of `uuidv4()`: the `n`-th identifier the process generates.  A
unary encoding (`n + 1` copies of `u`) keeps the three facts the code
relies on — injectivity, no `':'`, distinct from the sample ids — easy to
establish. -/
def genId (n : Nat) : String :=
  String.mk (List.replicate (n + 1) 'u')

/-- `getEntryKey`: `session:<sessionId>:entry:<entryId>`. -/
def getEntryKey (sessionId entryId : String) : String :=
  "session:" ++ sessionId ++ ":entry:" ++ entryId

/-- The prefix `session:<sessionId>:entry:` that `getAllEntries` scans
for. -/
def entryScanPrefix (sessionId : String) : String :=
  "session:" ++ sessionId ++ ":entry:"

/-- `getMemberKey`: `session:<sessionId>:member:<memberId>`. -/
def getMemberKey (sessionId memberId : String) : String :=
  "session:" ++ sessionId ++ ":member:" ++ memberId

/-- `getMemberTTL`: `Math.floor(ENTRIES_REFETCH_INTERVAL_MS / 1000) + 10`
seconds. -/
def getMemberTTL : Nat :=
  ENTRIES_REFETCH_INTERVAL_MS / 1000 + 10

/-- The `sampleEntries` array literal, evaluated at module-load time
`t0` (each `Date.now()` in the literal reads `t0`). -/
def sampleEntries (t0 : Int) : List RedisEntry :=
  [ { id := "entry-1",
      text := "Welcome to the session! This is a sample entry.",
      createdAt := t0 - 5000, expiresAt := t0 + 3600000, ttl := 3600,
      imageUrl := some "https://picsum.photos/seed/1/400/300",
      memberId := "member-1" },
    { id := "entry-2",
      text := "This is another sample entry with some interesting content.",
      createdAt := t0 - 10000, expiresAt := t0 + 7200000, ttl := 7200,
      imageUrl := none,
      memberId := "member-2" },
    { id := "entry-3",
      text := "Mock data is great for testing without external dependencies!",
      createdAt := t0 - 15000, expiresAt := t0 + 1800000, ttl := 1800,
      imageUrl := some "https://picsum.photos/seed/2/400/300",
      memberId := "member-1" } ]

/-- `trackMember`: upsert the member record with `lastSeen = Date.now()`. -/
def trackMember (st : St) (now : Int) (sessionId memberId : String) : St :=
  { st with
    mockMembers :=
      mapSet st.mockMembers (getMemberKey sessionId memberId)
        { sessionId := sessionId, memberId := memberId, lastSeen := now } }

/-- `getOnlineMemberCount`: count members of the session seen within
`getMemberTTL * 1000` ms, then return at least 3
(`Math.max(3, onlineCount)`). -/
def getOnlineMemberCount (st : St) (now : Int) (sessionId : String) : Nat :=
  let memberTTLms : Int := (getMemberTTL : Int) * 1000
  let onlineCount := st.mockMembers.countP fun p =>
    decide (p.2.sessionId = sessionId) && decide (now - p.2.lastSeen < memberTTLms)
  max 3 onlineCount

/-- `addEntry`: allocate a fresh uuid, build the entry
(`expiresAt = now + ttl * 1000`; `...(imageUrl && { imageUrl })` drops the
field when `imageUrl` is absent or the empty string), store it under
`getEntryKey`, and return it.  No argument is validated or clamped. -/
def addEntry (st : St) (now : Int) (text : String) (ttl : Int)
    (imageUrl : Option String) (sessionId memberId : String) :
    RedisEntry × St :=
  let entryId := genId st.uuidCounter
  let expiresAt := now + ttl * 1000
  let entry : RedisEntry :=
    { id := entryId, text := text, createdAt := now, expiresAt := expiresAt,
      ttl := ttl,
      imageUrl := match imageUrl with
        | some s => if s = "" then none else some s
        | none => none,
      memberId := memberId }
  let entryKey := getEntryKey sessionId entryId
  (entry,
   { st with
     mockEntries := mapSet st.mockEntries entryKey entry,
     uuidCounter := st.uuidCounter + 1 })

/-- The scan loop of `getAllEntries`: bindings whose key starts with
`session:<sessionId>:entry:` and whose entry is still live
(`new Date(entry.expiresAt) > now`), in map (= insertion) order. -/
def liveSessionEntries (st : St) (now : Int) (sessionId : String) :
    List RedisEntry :=
  (st.mockEntries.filter fun p =>
    (entryScanPrefix sessionId).data.isPrefixOf p.1.data
      && decide (now < p.2.expiresAt)).map (·.2)

/-- One step of the stable insertion sort modelling
`sort((a, b) => b.createdAt - a.createdAt)`: move past strictly newer
elements only, so that equal keys keep their original order. -/
def insertDesc (e : RedisEntry) : List RedisEntry → List RedisEntry
  | [] => [e]
  | x :: xs =>
    if e.createdAt < x.createdAt then x :: insertDesc e xs else e :: x :: xs

/-- Stable sort by `createdAt` descending (newest first). -/
def sortDesc : List RedisEntry → List RedisEntry
  | [] => []
  | x :: xs => insertDesc x (sortDesc xs)

/-- `getAllEntries`: collect the session's live entries; if none, fall
back to the canned `sampleEntries`; either way sort by `createdAt`
descending.  The scan performs no eviction. -/
def getAllEntries (st : St) (now : Int) (sessionId : String) :
    List RedisEntry :=
  let sessionEntries := liveSessionEntries st now sessionId
  if sessionEntries.isEmpty then
    sortDesc (sampleEntries st.t0)
  else
    sortDesc sessionEntries

/-- `getEntry`: look the key up; a miss falls back to
`sampleEntries[0] || null`; an expired hit (`expiresAt <= now`) is deleted
and reported as `null`; a live hit is returned. -/
def getEntry (st : St) (now : Int) (sessionId entryId : String) :
    Option RedisEntry × St :=
  let entryKey := getEntryKey sessionId entryId
  match mapGet st.mockEntries entryKey with
  | none => ((sampleEntries st.t0).head?, st)
  | some entry =>
    if entry.expiresAt ≤ now then
      (none, { st with mockEntries := mapDelete st.mockEntries entryKey })
    else
      (some entry, st)

/-- `deleteEntry`: report whether the key was present (live or not) and
remove it. -/
def deleteEntry (st : St) (sessionId entryId : String) : Bool × St :=
  let entryKey := getEntryKey sessionId entryId
  let existed := mapHas st.mockEntries entryKey
  (existed, { st with mockEntries := mapDelete st.mockEntries entryKey })

/-- A `SessionRedisService` instance.  The class has no instance fields:
all state lives in the module-level maps, so an instance is just an
identity tag. -/
structure SessionRedisService where
  tag : Nat
deriving DecidableEq

/-- Method call `svc.trackMember(...)` against module state `st`.  The
method body only touches the module-level maps, never `svc`. -/
def SessionRedisService.svcTrackMember (_svc : SessionRedisService) (st : St)
    (now : Int) (sessionId memberId : String) : St :=
  trackMember st now sessionId memberId

/-- Method call `svc.getOnlineMemberCount(...)`. -/
def SessionRedisService.svcGetOnlineMemberCount (_svc : SessionRedisService)
    (st : St) (now : Int) (sessionId : String) : Nat :=
  getOnlineMemberCount st now sessionId

/-- Method call `svc.addEntry(...)`. -/
def SessionRedisService.svcAddEntry (_svc : SessionRedisService) (st : St)
    (now : Int) (text : String) (ttl : Int) (imageUrl : Option String)
    (sessionId memberId : String) : RedisEntry × St :=
  addEntry st now text ttl imageUrl sessionId memberId

/-- Method call `svc.getAllEntries(...)`. -/
def SessionRedisService.svcGetAllEntries (_svc : SessionRedisService)
    (st : St) (now : Int) (sessionId : String) : List RedisEntry :=
  getAllEntries st now sessionId

/-- Method call `svc.getEntry(...)`. -/
def SessionRedisService.svcGetEntry (_svc : SessionRedisService) (st : St)
    (now : Int) (sessionId entryId : String) : Option RedisEntry × St :=
  getEntry st now sessionId entryId

/-- Method call `svc.deleteEntry(...)`. -/
def SessionRedisService.svcDeleteEntry (_svc : SessionRedisService) (st : St)
    (sessionId entryId : String) : Bool × St :=
  deleteEntry st sessionId entryId

/-- The states reachable from process start through the service's
operations (`getAllEntries` mutates nothing and is omitted). -/
inductive Reachable : St → Prop
  | init (t0 : Int) : Reachable (initSt t0)
  | track (st : St) (now : Int) (sid mid : String) :
      Reachable st → Reachable (trackMember st now sid mid)
  | add (st : St) (now : Int) (text : String) (ttl : Int)
      (img : Option String) (sid mid : String) :
      Reachable st → Reachable (addEntry st now text ttl img sid mid).2
  | get (st : St) (now : Int) (sid eid : String) :
      Reachable st → Reachable (getEntry st now sid eid).2
  | del (st : St) (sid eid : String) :
      Reachable st → Reachable (deleteEntry st sid eid).2

/-- Structural invariant of the entry map: every binding was created by
`addEntry`, so its key is `getEntryKey` of some session and of the stored
entry's own uuid, the uuid was drawn from the supply, and distinct
bindings hold entries with distinct ids. -/
structure EntriesWf (st : St) : Prop where
  keys : ∀ p ∈ st.mockEntries,
    ∃ sid n, n < st.uuidCounter ∧ p.2.id = genId n ∧
      p.1 = getEntryKey sid p.2.id
  inj : ∀ p ∈ st.mockEntries, ∀ q ∈ st.mockEntries,
    p.2.id = q.2.id → p.1 = q.1

theorem mapGet_mapSet_self {α : Type} (m : List (String × α)) (k : String)
    (v : α) : mapGet (mapSet m k v) k = some v := by
  induction m with
  | nil => simp [mapSet, mapGet]
  | cons hd tl ih =>
    obtain ⟨k', v'⟩ := hd
    by_cases hk : k' = k
    · simp [mapSet, mapGet, hk]
    · simp [mapSet, mapGet, hk, ih]

theorem mem_mapSet {α : Type} {m : List (String × α)} {k : String} {v : α}
    {p : String × α} (h : p ∈ mapSet m k v) : p = (k, v) ∨ p ∈ m := by
  induction m with
  | nil => simpa [mapSet] using h
  | cons hd tl ih =>
    obtain ⟨k', v'⟩ := hd
    by_cases hk : k' = k
    · simp only [mapSet, if_pos hk, List.mem_cons] at h
      rcases h with h | h
      · exact Or.inl h
      · exact Or.inr (List.mem_cons_of_mem _ h)
    · simp only [mapSet, if_neg hk, List.mem_cons] at h
      rcases h with h | h
      · exact Or.inr (by simp [h])
      · rcases ih h with h' | h'
        · exact Or.inl h'
        · exact Or.inr (List.mem_cons_of_mem _ h')

theorem mem_mapDelete {α : Type} {m : List (String × α)} {k : String}
    {p : String × α} (h : p ∈ mapDelete m k) : p ∈ m ∧ p.1 ≠ k := by
  induction m with
  | nil => simp [mapDelete] at h
  | cons hd tl ih =>
    obtain ⟨k', v'⟩ := hd
    by_cases hk : k' = k
    · simp only [mapDelete, if_pos hk] at h
      exact ⟨List.mem_cons_of_mem _ (ih h).1, (ih h).2⟩
    · simp only [mapDelete, if_neg hk, List.mem_cons] at h
      rcases h with h | h
      · subst h
        exact ⟨List.mem_cons_self _ _, hk⟩
      · exact ⟨List.mem_cons_of_mem _ (ih h).1, (ih h).2⟩

theorem mapGet_mapDelete_self {α : Type} (m : List (String × α))
    (k : String) : mapGet (mapDelete m k) k = none := by
  induction m with
  | nil => simp [mapDelete, mapGet]
  | cons hd tl ih =>
    obtain ⟨k', v'⟩ := hd
    by_cases hk : k' = k
    · simpa [mapDelete, if_pos hk] using ih
    · simp [mapDelete, if_neg hk, mapGet, hk, ih]

theorem mapGet_mem {α : Type} {m : List (String × α)} {k : String} {v : α}
    (h : mapGet m k = some v) : (k, v) ∈ m := by
  induction m with
  | nil => simp [mapGet] at h
  | cons hd tl ih =>
    obtain ⟨k', v'⟩ := hd
    by_cases hk : k' = k
    · simp only [mapGet, if_pos hk] at h
      subst hk
      simp [← Option.some_inj.mp h]
    · simp only [mapGet, if_neg hk] at h
      exact List.mem_cons_of_mem _ (ih h)

theorem takeWhile_all_append {α : Type} (p : α → Bool) (l1 : List α) (x : α)
    (l2 : List α) (h1 : ∀ a ∈ l1, p a = true) (hx : p x = false) :
    (l1 ++ x :: l2).takeWhile p = l1 := by
  induction l1 with
  | nil => simp [List.takeWhile_cons, hx]
  | cons a l ih =>
    have ha : p a = true := h1 a (List.mem_cons_self _ _)
    simp [List.takeWhile_cons, ha, ih fun b hb => h1 b (List.mem_cons_of_mem _ hb)]

theorem getEntryKey_data (s e : String) :
    (getEntryKey s e).data =
      "session:".data ++ s.data ++ ":entry:".data ++ e.data := by
  simp [getEntryKey, String.data_append]

/-- Keys built from colon-free entry ids decompose uniquely: the entry-id
component is recoverable as the longest colon-free suffix. -/
theorem getEntryKey_id_inj {s1 s2 e1 e2 : String}
    (h1 : ':' ∉ e1.data) (h2 : ':' ∉ e2.data)
    (h : getEntryKey s1 e1 = getEntryKey s2 e2) : e1 = e2 := by
  have hd : (getEntryKey s1 e1).data = (getEntryKey s2 e2).data := by rw [h]
  rw [getEntryKey_data, getEntryKey_data] at hd
  have hrev : e1.data.reverse ++
      (":entry:".data.reverse ++ (s1.data.reverse ++ "session:".data.reverse)) =
      e2.data.reverse ++
      (":entry:".data.reverse ++ (s2.data.reverse ++ "session:".data.reverse)) := by
    have := congrArg List.reverse hd
    simpa [List.reverse_append, List.append_assoc] using this
  have hcolon : (":entry:" : String).data.reverse =
      ':' :: ['y', 'r', 't', 'n', 'e', ':'] := by decide
  rw [hcolon] at hrev
  have key1 : ∀ e : String, ':' ∉ e.data →
      ∀ rest : List Char,
        (e.data.reverse ++ ':' :: rest).takeWhile (fun c => c != ':') =
          e.data.reverse := by
    intro e he rest
    refine takeWhile_all_append _ _ _ _ ?_ (by simp)
    intro a ha
    have : a ∈ e.data := List.mem_reverse.mp ha
    simp only [bne_iff_ne, ne_eq]
    intro hcon
    exact he (hcon ▸ this)
  have := congrArg (List.takeWhile (fun c => c != ':')) hrev
  rw [show (':' :: ['y', 'r', 't', 'n', 'e', ':'] ++
        (s1.data.reverse ++ "session:".data.reverse)) =
      ':' :: (['y', 'r', 't', 'n', 'e', ':'] ++
        (s1.data.reverse ++ "session:".data.reverse)) from rfl] at this
  rw [show (':' :: ['y', 'r', 't', 'n', 'e', ':'] ++
        (s2.data.reverse ++ "session:".data.reverse)) =
      ':' :: (['y', 'r', 't', 'n', 'e', ':'] ++
        (s2.data.reverse ++ "session:".data.reverse)) from rfl] at this
  rw [key1 e1 h1, key1 e2 h2] at this
  exact String.ext (List.reverse_injective this)

theorem genId_inj {m n : Nat} (h : genId m = genId n) : m = n := by
  have hd := congrArg String.data h
  simp only [genId] at hd
  have := congrArg List.length hd
  simpa using this

theorem genId_noColon (n : Nat) : ':' ∉ (genId n).data := by
  simp only [genId]
  intro hmem
  rw [List.mem_replicate] at hmem
  exact absurd hmem.2 (by decide)

theorem genId_head (n : Nat) : (genId n).data.head? = some 'u' := by
  simp [genId, List.replicate_succ]

theorem genId_ne_sample (n : Nat) :
    genId n ≠ "entry-1" ∧ genId n ≠ "entry-2" ∧ genId n ≠ "entry-3" := by
  refine ⟨?_, ?_, ?_⟩ <;>
    · intro h
      have h2 := congrArg (fun s => s.data.head?) h
      simp only at h2
      rw [genId_head] at h2
      simp at h2

theorem perm_insertDesc (e : RedisEntry) (l : List RedisEntry) :
    (insertDesc e l).Perm (e :: l) := by
  induction l with
  | nil => simp [insertDesc]
  | cons x xs ih =>
    by_cases hc : e.createdAt < x.createdAt
    · simp only [insertDesc, if_pos hc]
      exact ((ih.cons x).trans (List.Perm.swap e x xs))
    · simp [insertDesc, if_neg hc]

theorem perm_sortDesc (l : List RedisEntry) : (sortDesc l).Perm l := by
  induction l with
  | nil => simp [sortDesc]
  | cons x xs ih =>
    simp only [sortDesc]
    exact (perm_insertDesc x (sortDesc xs)).trans (ih.cons x)

theorem mem_sortDesc {x : RedisEntry} {l : List RedisEntry} :
    x ∈ sortDesc l ↔ x ∈ l :=
  (perm_sortDesc l).mem_iff

theorem pairwise_insertDesc (e : RedisEntry) (l : List RedisEntry)
    (h : List.Pairwise (fun a b => b.createdAt ≤ a.createdAt) l) :
    List.Pairwise (fun a b => b.createdAt ≤ a.createdAt) (insertDesc e l) := by
  induction l with
  | nil => simp [insertDesc]
  | cons x xs ih =>
    rw [List.pairwise_cons] at h
    by_cases hc : e.createdAt < x.createdAt
    · simp only [insertDesc, if_pos hc, List.pairwise_cons]
      refine ⟨?_, ih h.2⟩
      intro b hb
      rcases List.mem_cons.mp ((perm_insertDesc e xs).mem_iff.mp hb) with hb | hb
      · exact hb ▸ le_of_lt hc
      · exact h.1 b hb
    · simp only [insertDesc, if_neg hc, List.pairwise_cons]
      push_neg at hc
      refine ⟨?_, ?_, h.2⟩
      · intro b hb
        rcases List.mem_cons.mp hb with hb | hb
        · exact hb ▸ hc
        · exact le_trans (h.1 b hb) hc
      · exact h.1

theorem pairwise_sortDesc (l : List RedisEntry) :
    List.Pairwise (fun a b => b.createdAt ≤ a.createdAt) (sortDesc l) := by
  induction l with
  | nil => simp [sortDesc]
  | cons x xs ih => exact pairwise_insertDesc x (sortDesc xs) ih

theorem filter_insertDesc (c : Int) (e : RedisEntry) (l : List RedisEntry) :
    (insertDesc e l).filter (fun x => decide (x.createdAt = c)) =
      if e.createdAt = c then
        e :: l.filter (fun x => decide (x.createdAt = c))
      else l.filter (fun x => decide (x.createdAt = c)) := by
  induction l with
  | nil =>
    by_cases he : e.createdAt = c <;> simp [insertDesc, List.filter, he]
  | cons x xs ih =>
    by_cases hc : e.createdAt < x.createdAt
    · have hx : insertDesc e (x :: xs) = x :: insertDesc e xs := by
        simp [insertDesc, if_pos hc]
      by_cases he : e.createdAt = c
      · have hxne : ¬ x.createdAt = c := by omega
        simp [hx, List.filter_cons, he, hxne, ih]
      · by_cases hxc : x.createdAt = c <;>
          simp [hx, List.filter_cons, he, hxc, ih]
    · have hx : insertDesc e (x :: xs) = e :: x :: xs := by
        simp [insertDesc, if_neg hc]
      by_cases he : e.createdAt = c <;> simp [hx, List.filter_cons, he]

theorem filter_sortDesc (c : Int) (l : List RedisEntry) :
    (sortDesc l).filter (fun x => decide (x.createdAt = c)) =
      l.filter (fun x => decide (x.createdAt = c)) := by
  induction l with
  | nil => simp [sortDesc]
  | cons x xs ih =>
    simp only [sortDesc, filter_insertDesc, ih, List.filter_cons]
    by_cases he : x.createdAt = c <;> simp [he]

theorem entriesWf_delete {st : St} (h : EntriesWf st) (k : String) :
    EntriesWf { st with mockEntries := mapDelete st.mockEntries k } := by
  refine ⟨?_, ?_⟩
  · intro p hp
    exact h.keys p (mem_mapDelete hp).1
  · intro p hp q hq hid
    exact h.inj p (mem_mapDelete hp).1 q (mem_mapDelete hq).1 hid

theorem addEntry_state (st : St) (now : Int) (text : String) (ttl : Int)
    (imageUrl : Option String) (sessionId memberId : String) :
    (addEntry st now text ttl imageUrl sessionId memberId).2 =
      { st with
        mockEntries := mapSet st.mockEntries
          (getEntryKey sessionId (genId st.uuidCounter))
          (addEntry st now text ttl imageUrl sessionId memberId).1,
        uuidCounter := st.uuidCounter + 1 } := rfl

theorem addEntry_fst_id (st : St) (now : Int) (text : String) (ttl : Int)
    (imageUrl : Option String) (sessionId memberId : String) :
    (addEntry st now text ttl imageUrl sessionId memberId).1.id =
      genId st.uuidCounter := rfl

/-- Every state reachable through the service's operations satisfies the
entry-map key invariant. -/
theorem reachable_wf {st : St} (h : Reachable st) : EntriesWf st := by
  induction h with
  | init t0 =>
    refine ⟨?_, ?_⟩ <;> intro p hp <;> simp [initSt] at hp
  | track st now sid mid _ ih =>
    exact ⟨ih.keys, ih.inj⟩
  | add st now text ttl img sid mid _ ih =>
    rw [addEntry_state]
    refine ⟨?_, ?_⟩
    · intro p hp
      rcases mem_mapSet hp with hp | hp
      · refine ⟨sid, st.uuidCounter,
          by show st.uuidCounter < st.uuidCounter + 1; omega, ?_, ?_⟩
        · rw [hp, addEntry_fst_id]
        · rw [hp, addEntry_fst_id]
      · obtain ⟨s0, n, hn, hid, hkey⟩ := ih.keys p hp
        exact ⟨s0, n, by show n < st.uuidCounter + 1; omega, hid, hkey⟩
    · intro p hp q hq hid
      rcases mem_mapSet hp with hp | hp <;> rcases mem_mapSet hq with hq | hq
      · rw [hp, hq]
      · obtain ⟨s0, n, hn, hqid, _⟩ := ih.keys q hq
        rw [hp] at hid
        rw [addEntry_fst_id] at hid
        rw [hqid] at hid
        exact absurd (genId_inj hid) (by omega)
      · obtain ⟨s0, n, hn, hpid, _⟩ := ih.keys p hp
        rw [hq] at hid
        rw [addEntry_fst_id] at hid
        rw [hpid] at hid
        exact absurd (genId_inj hid.symm) (by omega)
      · exact ih.inj p hp q hq hid
  | get st now sid eid _ ih =>
    rcases hm : mapGet st.mockEntries (getEntryKey sid eid) with _ | entry
    · have hst : (getEntry st now sid eid).2 = st := by simp [getEntry, hm]
      rw [hst]
      exact ih
    · by_cases hexp : entry.expiresAt ≤ now
      · have hst : (getEntry st now sid eid).2 =
            { st with
              mockEntries :=
                mapDelete st.mockEntries (getEntryKey sid eid) } := by
          simp [getEntry, hm, hexp]
        rw [hst]
        exact entriesWf_delete ih _
      · have hst : (getEntry st now sid eid).2 = st := by
          simp [getEntry, hm, hexp]
        rw [hst]
        exact ih
  | del st sid eid _ ih =>
    exact entriesWf_delete ih _

theorem sortDesc_samples (t0 : Int) :
    sortDesc (sampleEntries t0) = sampleEntries t0 := by
  have h1 : ¬ (t0 - 10000 < t0 - 15000) := by omega
  have h2 : ¬ (t0 - 5000 < t0 - 10000) := by omega
  simp [sampleEntries, sortDesc, insertDesc, h1, h2]

/-- C1 counterexample: in the initial state no entry was ever added for
session `s1`, yet `getAllEntries` returns a non-empty sequence (the canned
sample entries) instead of the empty sequence the claim demands. -/
theorem getAll_empty_store_not_nil :
    (initSt 0).mockEntries = [] ∧ getAllEntries (initSt 0) 0 "s1" ≠ [] := by
  decide

/-- C1 amended: for every session with no live entries, `getAllEntries`
returns the three canned sample entries (sorted by `createdAt`
descending), not the empty sequence; it is still a normal, non-error
result. -/
theorem getAll_no_live_returns_samples (st : St) (now : Int) (sid : String)
    (h : liveSessionEntries st now sid = []) :
    getAllEntries st now sid = sampleEntries st.t0 := by
  simp [getAllEntries, h, sortDesc_samples]

/-- C1 witness: the amended theorem applied to the initial state. -/
theorem getAll_no_live_returns_samples_witness :
    liveSessionEntries (initSt 7) 0 "s1" = [] ∧
      getAllEntries (initSt 7) 0 "s1" = sampleEntries 7 :=
  ⟨by decide, getAll_no_live_returns_samples (initSt 7) 0 "s1" (by decide)⟩

/-- C2 counterexample: for a `sessionId`/`entryId` pair that never
existed, `getEntry` does not report NotFound (`null`); it returns the
first sample entry, so the outcome is distinguishable from the expired
case (which does return `null`). -/
theorem getEntry_never_added_not_notfound :
    (getEntry (initSt 0) 0 "s" "e").1 ≠ none := by decide

/-- C2 amended: when the key is absent from the store, `getEntry` returns
`sampleEntries[0]` (a non-null entry) and leaves the state unchanged, so a
miss is observably different from the `null` reported for an expired
entry. -/
theorem getEntry_missing_returns_first_sample (st : St) (now : Int)
    (sid eid : String)
    (h : mapGet st.mockEntries (getEntryKey sid eid) = none) :
    getEntry st now sid eid = ((sampleEntries st.t0).head?, st) ∧
      (getEntry st now sid eid).1 ≠ none := by
  constructor
  · simp [getEntry, h]
  · simp [getEntry, h, sampleEntries]

/-- C2 witness: the amended theorem applied to the initial state. -/
theorem getEntry_missing_returns_first_sample_witness :
    mapGet (initSt 3).mockEntries (getEntryKey "s" "e") = none ∧
      (getEntry (initSt 3) 0 "s" "e").1 ≠ none :=
  ⟨by decide, (getEntry_missing_returns_first_sample (initSt 3) 0 "s" "e"
    (by decide)).2⟩

/-- C3 counterexample: after `track("s1","m1")` and `track("s1","m2")` at
time 0, querying at time 20000 ms — past the presence window of
`getMemberTTL * 1000 = 15000` ms — yields 3, not 0: the count is clamped
below by `Math.max(3, onlineCount)`. -/
theorem onlineCount_after_window_not_zero :
    getOnlineMemberCount
        (trackMember (trackMember (initSt 0) 0 "s1" "m1") 0 "s1" "m2")
        20000 "s1" = 3 ∧
      getOnlineMemberCount
        (trackMember (trackMember (initSt 0) 0 "s1" "m1") 0 "s1" "m2")
        20000 "s1" ≠ 0 := by
  decide

/-- C3 amended: a member whose last heartbeat is at least
`getMemberTTL * 1000` ms in the past is excluded from the underlying scan
count, but the method returns `max 3 count`, so when every member of the
session is stale the result is 3, never 0. -/
theorem onlineCount_all_stale_eq_three (st : St) (now : Int) (sid : String)
    (h : ∀ p ∈ st.mockMembers, p.2.sessionId = sid →
      (getMemberTTL : Int) * 1000 ≤ now - p.2.lastSeen) :
    getOnlineMemberCount st now sid = 3 := by
  have hz : (st.mockMembers.countP fun p =>
      decide (p.2.sessionId = sid) &&
        decide (now - p.2.lastSeen < (getMemberTTL : Int) * 1000)) = 0 := by
    rw [List.countP_eq_zero]
    intro p hp
    simp only [Bool.and_eq_true, decide_eq_true_eq, not_and]
    intro hs
    exact not_lt.mpr (h p hp hs)
  simp only [getOnlineMemberCount, hz]
  omega

/-- C3 witness: the amended theorem applied to a member tracked at time 0
and queried at 16000 ms. -/
theorem onlineCount_all_stale_eq_three_witness :
    (∀ p ∈ (trackMember (initSt 0) 0 "s1" "m1").mockMembers,
        p.2.sessionId = "s1" →
          (getMemberTTL : Int) * 1000 ≤ 16000 - p.2.lastSeen) ∧
      getOnlineMemberCount (trackMember (initSt 0) 0 "s1" "m1") 16000 "s1" = 3 :=
  ⟨by decide,
    onlineCount_all_stale_eq_three (trackMember (initSt 0) 0 "s1" "m1")
      16000 "s1" (by decide)⟩

/-- C4 counterexample: an entry added with a 1-second TTL is expired at
time 2000 ms (as `getEntry` confirms by reporting NotFound), yet
`deleteEntry` on that already-expired key returns `true`, where the claim
demands `false`: `deleteEntry` checks presence with `Map.has`, never
expiry. -/
theorem deleteEntry_true_on_expired :
    (addEntry (initSt 0) 0 "hi" 1 none "s" "m").1.expiresAt ≤ 2000 ∧
      (getEntry (addEntry (initSt 0) 0 "hi" 1 none "s" "m").2 2000 "s"
          (genId 0)).1 = none ∧
      (deleteEntry (addEntry (initSt 0) 0 "hi" 1 none "s" "m").2 "s"
          (genId 0)).1 = true := by
  decide

/-- C4 amended: `deleteEntry` returns `true` iff the key was present in
the map — live or already expired — and removes it; a missing key yields
`false` without error. -/
theorem deleteEntry_reports_presence (st : St) (sid eid : String) :
    (deleteEntry st sid eid).1 = mapHas st.mockEntries (getEntryKey sid eid) ∧
      mapGet ((deleteEntry st sid eid).2).mockEntries
        (getEntryKey sid eid) = none := by
  refine ⟨rfl, ?_⟩
  simp [deleteEntry, mapGet_mapDelete_self]

/-- C5 counterexample: `addEntry` accepts an empty `text` and a TTL above
`MAX_TTL` unchanged, and the offending entry is stored, violating the
claimed argument constraints. -/
theorem addEntry_stores_invalid_args :
    (addEntry (initSt 0) 0 "" (MAX_TTL + 1) none "s" "m").1.text = "" ∧
      MAX_TTL < (addEntry (initSt 0) 0 "" (MAX_TTL + 1) none "s" "m").1.ttl ∧
      mapGet ((addEntry (initSt 0) 0 "" (MAX_TTL + 1) none "s" "m").2).mockEntries
          (getEntryKey "s" (genId 0)) =
        some (addEntry (initSt 0) 0 "" (MAX_TTL + 1) none "s" "m").1 := by
  decide

/-- C5 amended: `addEntry` performs no validation and no clamping: the
stored entry carries exactly the supplied `text` and `ttl`, whatever they
are (empty text, non-positive TTL, or TTL above `MAX_TTL`, which the
implementation never consults). -/
theorem addEntry_no_validation (st : St) (now : Int) (text : String)
    (ttl : Int) (imageUrl : Option String) (sid mid : String) :
    (addEntry st now text ttl imageUrl sid mid).1.text = text ∧
      (addEntry st now text ttl imageUrl sid mid).1.ttl = ttl ∧
      mapGet ((addEntry st now text ttl imageUrl sid mid).2).mockEntries
          (getEntryKey sid (genId st.uuidCounter)) =
        some (addEntry st now text ttl imageUrl sid mid).1 := by
  refine ⟨rfl, rfl, ?_⟩
  rw [addEntry_state]
  exact mapGet_mapSet_self _ _ _

/-- C6 counterexample: two distinct `SessionRedisService` instances share
the module-level maps: an entry added through instance 1 is returned by a
`getEntry` through instance 2, so mutations through one instance do
change what a different instance observes. -/
theorem instances_share_state :
    SessionRedisService.mk 1 ≠ SessionRedisService.mk 2 ∧
      ((SessionRedisService.mk 2).svcGetEntry
          ((SessionRedisService.mk 1).svcAddEntry (initSt 0) 0 "hi" 60 none
            "s" "m").2 0 "s" (genId 0)).1 =
        some ((SessionRedisService.mk 1).svcAddEntry (initSt 0) 0 "hi" 60
          none "s" "m").1 := by
  decide

/-- C6 amended: every operation is independent of the instance it is
invoked through — all instances are interchangeable views of the single
module-level state, so a mutation through one is observed through every
other, and only the module (not each instance) starts empty. -/
theorem ops_independent_of_instance (a b : SessionRedisService) (st : St)
    (now : Int) (text : String) (ttl : Int) (img : Option String)
    (sid mid eid : String) :
    a.svcTrackMember st now sid mid = b.svcTrackMember st now sid mid ∧
      a.svcGetOnlineMemberCount st now sid =
        b.svcGetOnlineMemberCount st now sid ∧
      a.svcAddEntry st now text ttl img sid mid =
        b.svcAddEntry st now text ttl img sid mid ∧
      a.svcGetAllEntries st now sid = b.svcGetAllEntries st now sid ∧
      a.svcGetEntry st now sid eid = b.svcGetEntry st now sid eid ∧
      a.svcDeleteEntry st sid eid = b.svcDeleteEntry st sid eid :=
  ⟨rfl, rfl, rfl, rfl, rfl, rfl⟩

/-- C7 counterexample: with an empty store — so nothing was ever added
under session `s1` — `getAllEntries "s1"` returns the three sample
entries, which belong to no session at all, refuting that every returned
entry was added under the queried session. -/
theorem getAll_returns_foreign_samples :
    (initSt 0).mockEntries = [] ∧
      (getAllEntries (initSt 0) 0 "s1").map (fun e => e.memberId) =
        ["member-1", "member-2", "member-1"] := by
  decide

/-- C7 amended: `getAllEntries` returns a permutation of either the
session's live scan (bindings whose key starts with
`session:<sid>:entry:`) when that scan is non-empty, or of the canned
sample entries otherwise; in both cases the output is sorted by
`createdAt` non-increasing, and entries with equal `createdAt` keep their
insertion order (the sort is stable: filtering the output to one
`createdAt` value gives exactly the corresponding filter of the input
sequence). -/
theorem getAll_sorted_stable (st : St) (now : Int) (sid : String) :
    List.Pairwise (fun a b => b.createdAt ≤ a.createdAt)
        (getAllEntries st now sid) ∧
      (getAllEntries st now sid).Perm
        (if (liveSessionEntries st now sid).isEmpty then sampleEntries st.t0
         else liveSessionEntries st now sid) ∧
      ∀ c : Int,
        (getAllEntries st now sid).filter (fun x => decide (x.createdAt = c)) =
          (if (liveSessionEntries st now sid).isEmpty then sampleEntries st.t0
           else liveSessionEntries st now sid).filter
            (fun x => decide (x.createdAt = c)) := by
  unfold getAllEntries
  by_cases h : (liveSessionEntries st now sid).isEmpty <;>
    simp [h, pairwise_sortDesc, perm_sortDesc, filter_sortDesc]

/-- C8: an entry that is stored but expired (`expiresAt <= now`) is
evicted by `getEntry`, which reports NotFound (`null`); afterwards no
`getAllEntries` result — for any session and any time — contains an entry
with its id (in particular it never reappears for its own session). -/
theorem getEntry_expired_evicts (st : St) (now : Int) (sid eid : String)
    (e : RedisEntry) (hr : Reachable st)
    (hfound : mapGet st.mockEntries (getEntryKey sid eid) = some e)
    (hexp : e.expiresAt ≤ now) :
    (getEntry st now sid eid).1 = none ∧
      mapGet ((getEntry st now sid eid).2).mockEntries
        (getEntryKey sid eid) = none ∧
      ∀ (now' : Int) (sid' : String) (x : RedisEntry),
        x ∈ getAllEntries ((getEntry st now sid eid).2) now' sid' →
          x.id ≠ e.id := by
  have wf := reachable_wf hr
  have hfst : (getEntry st now sid eid).1 = none := by
    simp [getEntry, hfound, hexp]
  have hsnd : (getEntry st now sid eid).2 =
      { st with
        mockEntries := mapDelete st.mockEntries (getEntryKey sid eid) } := by
    simp [getEntry, hfound, hexp]
  obtain ⟨_, n, _, heid, _⟩ := wf.keys _ (mapGet_mem hfound)
  refine ⟨hfst, ?_, ?_⟩
  · rw [hsnd]
    exact mapGet_mapDelete_self _ _
  · intro now' sid' x hx hid
    rw [hsnd] at hx
    unfold getAllEntries at hx
    by_cases hb : (liveSessionEntries
        { st with
          mockEntries := mapDelete st.mockEntries (getEntryKey sid eid) }
        now' sid').isEmpty
    · rw [if_pos hb] at hx
      have hx' := mem_sortDesc.mp hx
      have hsample := genId_ne_sample n
      simp only [sampleEntries, List.mem_cons, List.not_mem_nil, or_false] at hx'
      rcases hx' with hx' | hx' | hx' <;>
        · rw [hx'] at hid
          simp only at hid
          rw [heid] at hid
          simp_all
    · rw [if_neg hb] at hx
      have hx' := mem_sortDesc.mp hx
      unfold liveSessionEntries at hx'
      obtain ⟨p, hp, hpx⟩ := List.mem_map.mp hx'
      have hpmem := (List.mem_filter.mp hp).1
      simp only at hpmem
      have hpold := mem_mapDelete hpmem
      have hkey := wf.inj p hpold.1 _ (mapGet_mem hfound)
        (by rw [hpx]; exact hid)
      exact hpold.2 hkey

/-- C8 witness: the theorem applied to an entry added with a 1-second TTL
and read at 2000 ms. -/
theorem getEntry_expired_evicts_witness :
    mapGet (addEntry (initSt 0) 0 "hi" 1 none "s" "m").2.mockEntries
        (getEntryKey "s" (genId 0)) =
      some (addEntry (initSt 0) 0 "hi" 1 none "s" "m").1 ∧
      (addEntry (initSt 0) 0 "hi" 1 none "s" "m").1.expiresAt ≤ 2000 ∧
      (getEntry (addEntry (initSt 0) 0 "hi" 1 none "s" "m").2 2000 "s"
        (genId 0)).1 = none :=
  ⟨by decide, by decide,
    (getEntry_expired_evicts (addEntry (initSt 0) 0 "hi" 1 none "s" "m").2
      2000 "s" (genId 0) (addEntry (initSt 0) 0 "hi" 1 none "s" "m").1
      (Reachable.add (initSt 0) 0 "hi" 1 none "s" "m" (Reachable.init 0))
      (by decide) (by decide)).1⟩

/-- C9: a valid `addEntry` (non-empty text, TTL in `(0, MAX_TTL]`)
immediately followed by `getEntry` on the returned id yields exactly the
stored entry: same `text`, `memberId` and `ttl`, and its lifetime
`expiresAt - createdAt` equals `ttl` seconds (`ttl * 1000` ms). -/
theorem add_then_get_roundtrip (st : St) (now : Int) (text : String)
    (ttl : Int) (img : Option String) (sid mid : String)
    (_htext : text ≠ "") (hpos : 0 < ttl) (_hmax : ttl ≤ MAX_TTL) :
    (getEntry (addEntry st now text ttl img sid mid).2 now sid
        (addEntry st now text ttl img sid mid).1.id).1 =
      some (addEntry st now text ttl img sid mid).1 ∧
      (addEntry st now text ttl img sid mid).1.text = text ∧
      (addEntry st now text ttl img sid mid).1.memberId = mid ∧
      (addEntry st now text ttl img sid mid).1.ttl = ttl ∧
      (addEntry st now text ttl img sid mid).1.expiresAt -
        (addEntry st now text ttl img sid mid).1.createdAt = ttl * 1000 := by
  have hget : mapGet ((addEntry st now text ttl img sid mid).2).mockEntries
      (getEntryKey sid (addEntry st now text ttl img sid mid).1.id) =
      some (addEntry st now text ttl img sid mid).1 := by
    rw [addEntry_fst_id, addEntry_state]
    exact mapGet_mapSet_self _ _ _
  have hlive : ¬ ((addEntry st now text ttl img sid mid).1.expiresAt ≤ now) := by
    show ¬ (now + ttl * 1000 ≤ now)
    omega
  refine ⟨?_, rfl, rfl, rfl, ?_⟩
  · simp [getEntry, hget, hlive]
  · show now + ttl * 1000 - now = ttl * 1000
    omega

/-- C9 witness: the concrete scenario `add("s1","m1","hello",60)` followed
by `get` at the same instant. -/
theorem add_then_get_roundtrip_witness :
    ("hello" : String) ≠ "" ∧ (0 : Int) < 60 ∧ (60 : Int) ≤ MAX_TTL ∧
      (getEntry (addEntry (initSt 0) 0 "hello" 60 none "s1" "m1").2 0 "s1"
          (addEntry (initSt 0) 0 "hello" 60 none "s1" "m1").1.id).1 =
        some (addEntry (initSt 0) 0 "hello" 60 none "s1" "m1").1 :=
  ⟨by decide, by decide, by decide,
    (add_then_get_roundtrip (initSt 0) 0 "hello" 60 none "s1" "m1"
      (by decide) (by decide) (by decide)).1⟩

/-- C10 counterexample: key composition is ambiguous when identifiers
contain `:entry:`: the entry added under session `a:entry:b` is stored
under the very key `getEntry` computes for session `a` and entry id
`b:entry:<uuid>`, so `getEntry` returns a store-found entry whose `id`
differs from the requested `entryId`. -/
theorem getEntry_found_id_mismatch :
    mapGet ((addEntry (initSt 0) 0 "hello" 60 none "a:entry:b" "m").2).mockEntries
        (getEntryKey "a" ("b:entry:" ++ genId 0)) =
      some (addEntry (initSt 0) 0 "hello" 60 none "a:entry:b" "m").1 ∧
      (getEntry (addEntry (initSt 0) 0 "hello" 60 none "a:entry:b" "m").2 0
          "a" ("b:entry:" ++ genId 0)).1 =
        some (addEntry (initSt 0) 0 "hello" 60 none "a:entry:b" "m").1 ∧
      (addEntry (initSt 0) 0 "hello" 60 none "a:entry:b" "m").1.id ≠
        "b:entry:" ++ genId 0 := by
  decide

/-- C10 amended: in every reachable state each binding is keyed by
`session:<sid>:entry:<id>` where `<id>` is the stored entry's own
(uuid-supply) id and `<sid>` the session it was added under; and whenever
`getEntry` returns an entry found in the store under the requested key,
the entry's id equals the requested `entryId` provided that `entryId`
contains no `':'` (as every generated uuid does not) — without that
proviso the key decomposition is ambiguous and the equality can fail. -/
theorem entry_key_invariant_id_eq (st : St) (now : Int) (sid eid : String)
    (e : RedisEntry) (hr : Reachable st) (hcf : ':' ∉ eid.data)
    (_hget : (getEntry st now sid eid).1 = some e)
    (hfound : mapGet st.mockEntries (getEntryKey sid eid) = some e) :
    (∀ p ∈ st.mockEntries, ∃ sid0 n, p.2.id = genId n ∧
        p.1 = getEntryKey sid0 p.2.id) ∧
      e.id = eid := by
  have wf := reachable_wf hr
  constructor
  · intro p hp
    obtain ⟨s0, n, _, hid, hkey⟩ := wf.keys p hp
    exact ⟨s0, n, hid, hkey⟩
  · obtain ⟨s0, n, _, hid, hkey⟩ := wf.keys _ (mapGet_mem hfound)
    simp only at hid hkey
    have hcf2 : ':' ∉ (getEntryKey sid eid, e).2.id.data := by
      simp only [hid]
      exact genId_noColon n
    exact (getEntryKey_id_inj hcf hcf2 hkey).symm

/-- C10 witness: the amended theorem applied to a freshly added entry
looked up under its own (colon-free) uuid. -/
theorem entry_key_invariant_id_eq_witness :
    (':' ∉ (genId 0).data) ∧
      (getEntry (addEntry (initSt 0) 0 "hi" 60 none "s" "m").2 0 "s"
          (genId 0)).1 =
        some (addEntry (initSt 0) 0 "hi" 60 none "s" "m").1 ∧
      mapGet (addEntry (initSt 0) 0 "hi" 60 none "s" "m").2.mockEntries
          (getEntryKey "s" (genId 0)) =
        some (addEntry (initSt 0) 0 "hi" 60 none "s" "m").1 ∧
      (addEntry (initSt 0) 0 "hi" 60 none "s" "m").1.id = genId 0 :=
  ⟨by decide, by decide, by decide,
    (entry_key_invariant_id_eq (addEntry (initSt 0) 0 "hi" 60 none "s" "m").2
      0 "s" (genId 0) (addEntry (initSt 0) 0 "hi" 60 none "s" "m").1
      (Reachable.add (initSt 0) 0 "hi" 60 none "s" "m" (Reachable.init 0))
      (by decide) (by decide) (by decide)).2⟩

